import Mathlib

/-!
Verification development for the dub CSV-import pipeline and the A/B-test
completion scheduler.

Shallow embedding of:
- `apps/web/lib/api/links/schedule-test-completion.ts` (`scheduleTestCompletion`)
- `apps/web/app/api/cron/import/csv/route.ts` (`POST`, `mapCsvRowToLink`,
  `processMappedLinks`)

External collaborators (the WHATWG URL parser, `normalizeString`,
`parseDateTime`, `linkConstructorSimple` from `@dub/utils`, and the
`processLink` validation service) are passed in as function parameters, so
every theorem quantifies over their behaviour unless the claim pins it down.
The message queue and the redis cursor store are modelled as explicit state
(a list of scheduled messages; recorded lists of writes).
-/

namespace Dub

/-! ## Row mapper data model (route.ts) -/

/-- The `data` payload of a successful `MapperResult` (route.ts lines
40-52): a validated link-creation intent. `createdAt` is a parsed
timestamp (epoch milliseconds). -/
structure LinkData where
  domain : String
  key : String
  url : String
  title : Option String := none
  description : Option String := none
  tags : Option (List String) := none
  createdAt : Option Int := none
deriving Repr, DecidableEq

/-- `MapperResult`: result of mapping one raw CSV row. -/
structure MapperResult where
  success : Bool
  error : Option String := none
  data : Option LinkData := none
deriving Repr, DecidableEq

/-- The column-mapping config (`linkMappingSchema`): logical field name to
source column name; `link` and `url` are required, the rest optional. -/
structure LinkMapping where
  link : String
  url : String
  title : Option String := none
  description : Option String := none
  createdAt : Option String := none
  tags : Option String := none
deriving Repr, DecidableEq

/-- A raw CSV row: the header/value pairs in object-key order, as PapaParse
delivers them with `header: true`. -/
def Row : Type := List (String × String)

/-- Model of the ECMAScript `s.split(sep)` call for a one-character
separator: split the character sequence on that character. Like JS,
splitting the empty string yields `[""]` and a trailing separator yields a
trailing empty segment. -/
def jsSplit (sep : Char) (s : String) : List String :=
  (s.toList.splitOn sep).map List.asString

/-- Model of the ECMAScript `s.trim()` call: strip leading and trailing
whitespace from the character sequence. -/
def jsTrim (s : String) : String :=
  (((s.toList.dropWhile Char.isWhitespace).reverse.dropWhile
    Char.isWhitespace).reverse).asString

/-- `getValueByKey` inside `mapCsvRowToLink`: find the first header whose
normalized form equals the normalized target, and return its trimmed
value, or `""` when none matches. The source guards with `key ? ... : ""`,
so a matching header that is itself the empty string (falsy) also yields
`""`. `normalize` is `normalizeString` from `@dub/utils` (external). -/
def getValueByKey (normalize : String → String) (row : Row)
    (targetKey : String) : String :=
  match row.find? (fun kv => normalize kv.1 = normalize targetKey) with
  | some kv => if kv.1 = "" then "" else jsTrim kv.2
  | none => ""

/-- Embedding of `mapCsvRowToLink` (route.ts lines 197-296).
`validURL u` models whether `new URL(u)` succeeds (external WHATWG
parser); `parseDT` models `parseDateTime` from `@dub/utils`, returning
`none` when the date cannot be parsed. -/
def mapCsvRowToLink (normalize : String → String) (validURL : String → Bool)
    (parseDT : String → Option Int) (row : Row) (mapping : LinkMapping) :
    MapperResult :=
  let getVal := getValueByKey normalize row
  let linkValue := getVal mapping.link
  let urlValue := getVal mapping.url
  if linkValue = "" then
    { success := false, error := some "Missing required field: link" }
  else if urlValue = "" then
    { success := false, error := some "Missing required field: url" }
  else
    let parts := jsSplit '/' linkValue
    let domain := parts.headD ""
    let joined := String.intercalate "/" parts.tail
    let key := if joined = "" then "_root" else joined
    if !validURL urlValue then
      { success := false, error := some ("Invalid URL format: " ++ urlValue) }
    else
      let title := mapping.title.bind (fun c =>
        let t := getVal c; if t = "" then none else some t)
      let description := mapping.description.bind (fun c =>
        let d := getVal c; if d = "" then none else some d)
      let createdAt := mapping.createdAt.bind (fun c =>
        let v := getVal c; if v = "" then none else parseDT v)
      let tags := mapping.tags.bind (fun c =>
        let v := getVal c
        if v = "" then none
        else some ((((jsSplit ',' v).map jsTrim).filter
          (fun t => t ≠ "")).map normalize))
      { success := true,
        data := some { domain, key, url := urlValue, title, description,
                       tags, createdAt } }

/-! ## Batch processor (`POST` handler parse loop, route.ts lines 87-125)

The PapaParse `step` callback implements a cooperative loop over the
file's rows: a row whose stream index is below the persisted cursor is
traversed but not mapped; once `MAX_ROWS_PER_EXECUTION` rows have been
accepted past the cursor, `parser.abort()` stops the stream; every
accepted row is mapped and the new cursor value persisted to redis before
the next row is consumed. The loop is parametric in the row type and the
row mapper, as the source loop treats `mapCsvRowToLink` as opaque. -/

def MAX_ROWS_PER_EXECUTION : Nat := 25

/-- State of the parse loop: the accumulated `mappedLinks`, the
`currentRow` counter, the sequence of cursor values persisted by
`redis.set` in order, and whether `parser.abort()` was called. -/
structure ParseState (α : Type) where
  mappedLinks : List α
  currentRow : Nat
  cursorWrites : List Nat
  aborted : Bool
deriving Repr, DecidableEq

/-- One invocation's `step` loop (route.ts lines 101-123) over the
remaining rows of the stream, given the cursor read from redis. -/
def parseSteps {ρ α : Type} (mapRow : ρ → α) (cursor : Nat) :
    List ρ → ParseState α → ParseState α
  | [], s => s
  | r :: rest, s =>
    if s.currentRow < cursor then
      parseSteps mapRow cursor rest { s with currentRow := s.currentRow + 1 }
    else if s.currentRow - cursor ≥ MAX_ROWS_PER_EXECUTION then
      { s with aborted := true }
    else
      parseSteps mapRow cursor rest
        { mappedLinks := s.mappedLinks ++ [mapRow r],
          currentRow := s.currentRow + 1,
          cursorWrites := s.cursorWrites ++ [s.currentRow + 1],
          aborted := s.aborted }

/-- The whole parse of one invocation, starting from a fresh state. -/
def runParse {ρ α : Type} (mapRow : ρ → α) (cursor : Nat) (rows : List ρ) :
    ParseState α :=
  parseSteps mapRow cursor rows ⟨[], 0, [], false⟩

/-- The per-job redis key namespace `import:csv:{workspaceId}:{id}`. -/
def redisKey (workspaceId jobId : String) : String :=
  "import:csv:" ++ workspaceId ++ ":" ++ jobId

/-- Observable outcome of one `POST` invocation: the mapped rows handed to
`processMappedLinks`, the persisted cursor trace, the cursor value left in
redis, whether end-of-file was reached, and which of the
continue/finalize effects ran. -/
structure InvocationOutcome (α : Type) where
  mappedLinks : List α
  cursorWrites : List Nat
  finalCursor : Nat
  isComplete : Bool
  continuationMessages : Nat
  summarySent : Bool
  deletedKeys : List String
  sourceFileDeleted : Bool
deriving Repr, DecidableEq

/-- Control flow of one `POST` invocation around the parse loop (route.ts
lines 87-184): run the step loop from the persisted cursor; `isComplete`
holds when the stream was consumed to its natural end (on an aborted
streaming parse the `complete` callback sees the aborted row results and
the `currentRow >= results.data.length` comparison is false, so an abort
always leaves `isComplete` false; at natural end `currentRow` equals the
file's row count and the comparison is true). If the row budget was fully
consumed and end-of-file was not reached, publish exactly one
continuation message; otherwise take the finalize branch: send the
summary email, delete the four per-job redis keys and the source file. -/
def runInvocation {ρ α : Type} (mapRow : ρ → α) (workspaceId jobId : String)
    (cursor : Nat) (rows : List ρ) : InvocationOutcome α :=
  let s := runParse mapRow cursor rows
  let isComplete : Bool := s.currentRow ≥ rows.length
  let rk := redisKey workspaceId jobId
  if s.currentRow - cursor ≥ MAX_ROWS_PER_EXECUTION ∧ isComplete = false then
    { mappedLinks := s.mappedLinks,
      cursorWrites := s.cursorWrites,
      finalCursor := s.cursorWrites.getLastD cursor,
      isComplete := isComplete,
      continuationMessages := 1,
      summarySent := false,
      deletedKeys := [],
      sourceFileDeleted := false }
  else
    { mappedLinks := s.mappedLinks,
      cursorWrites := s.cursorWrites,
      finalCursor := s.cursorWrites.getLastD cursor,
      isComplete := isComplete,
      continuationMessages := 0,
      summarySent := true,
      deletedKeys := [rk ++ ":cursor", rk ++ ":created", rk ++ ":failed",
                      rk ++ ":domains"],
      sourceFileDeleted := true }

/-! ## Link materializer (`processMappedLinks`, route.ts lines 298-487)

The relational store is abstracted to the list of canonical short-link
strings already existing for the workspace; `linkConstructorSimple` and
the `processLink` validation service are external collaborators passed as
functions. Tag and domain creation (route.ts lines 335-404) write only to
external tag/domain tables that no later step of this function reads, so
the outcome records the collected tag and domain name lists. -/

/-- An entry of the per-job failed-rows list (`ErrorLink`). -/
structure ErrorLink where
  domain : String
  key : String
  error : String
deriving Repr, DecidableEq

/-- Result of the external `processLink` call for one candidate: the
(possibly adjusted) link and an optional rejection message. -/
structure ProcessedLink where
  link : LinkData
  error : Option String
deriving Repr, DecidableEq

/-- Observable outcome of one `processMappedLinks` call. -/
structure MaterializeOutcome where
  failedMappings : List MapperResult
  successfulData : List LinkData
  selectedTags : List String
  selectedDomains : List String
  linksToCreate : List LinkData
  validLinks : List LinkData
  errorLinksAppended : List ErrorLink
  createdIncrement : Nat
deriving Repr, DecidableEq

/-- `failedMappings` (route.ts line 313): mapper results with
`!result.success && !!result.error`. They are only logged. -/
def failedMappingsOf (mappedLinks : List MapperResult) : List MapperResult :=
  mappedLinks.filter (fun r => !r.success && r.error.isSome)

/-- The `data` of `successfulMappings` (route.ts lines 322 and 411):
mapper results with `result.success && !!result.data`, projected to their
payloads; this is what `linksToCreate` starts as. -/
def successfulDataOf (mappedLinks : List MapperResult) : List LinkData :=
  (mappedLinks.filter (fun r => r.success && r.data.isSome)).filterMap (·.data)

/-- `existingLinks` (route.ts lines 413-423): the workspace's stored
short-link strings that are among the candidates' canonical strings. -/
def existingLinksOf (ctor : LinkData → String) (store : List String)
    (mappedLinks : List MapperResult) : List String :=
  store.filter (fun s => ((successfulDataOf mappedLinks).map ctor).contains s)

/-- The dedup filter (route.ts lines 429-432): candidates whose canonical
short-link string is among `existingLinks` are excluded; the survivors are
what `processLink` and `bulkCreateLinks` receive. -/
def linksToCreateOf (ctor : LinkData → String) (store : List String)
    (mappedLinks : List MapperResult) : List LinkData :=
  (successfulDataOf mappedLinks).filter
    (fun l => !((existingLinksOf ctor store mappedLinks).any (fun e => e = ctor l)))

/-- Embedding of `processMappedLinks`: partition the mapper results,
collect tag and domain names, query the workspace's existing links whose
short link is among the candidates' canonical strings, exclude those
candidates, run the survivors through `processLink`, and split the
results into bulk-inserted valid links (counted into `:created`) and
per-row errors appended to the `:failed` list. An empty batch returns
early having done nothing. -/
def processMappedLinks (ctor : LinkData → String)
    (pfn : LinkData → ProcessedLink) (store : List String)
    (mappedLinks : List MapperResult) : MaterializeOutcome :=
  if mappedLinks.length = 0 then
    ⟨[], [], [], [], [], [], [], 0⟩
  else
    let successfulData := successfulDataOf mappedLinks
    let selectedTags := ((successfulData.filterMap (·.tags)).flatten).filter
      (fun t => t ≠ "")
    let selectedDomains := (successfulData.map (·.domain)).filter
      (fun d => d ≠ "")
    let linksToCreate := linksToCreateOf ctor store mappedLinks
    let processed := linksToCreate.map pfn
    let validLinks := (processed.filter (fun p => p.error.isNone)).map (·.link)
    let errorLinks := (processed.filter (fun p => p.error.isSome)).map
      (fun p => ⟨p.link.domain, p.link.key, p.error.getD ""⟩)
    ⟨failedMappingsOf mappedLinks, successfulData, selectedTags, selectedDomains,
     linksToCreate, validLinks, errorLinks, validLinks.length⟩

/-! ## Test-completion scheduler
Embedding of `scheduleTestCompletion` (schedule-test-completion.ts).
The qstash queue is a list of outstanding delayed messages; the
`DELETE /v2/messages` call with a `url` body removes every outstanding
message for that url; `qstash.publishJSON` appends one message. -/

/-- One outstanding delayed message in the queue, keyed by target url. -/
structure ScheduledMessage where
  url : String
  delay : Int
deriving Repr, DecidableEq

/-- The fields of `ExpandedLink` that `scheduleTestCompletion` reads.
`testVariants` is truthy/falsy in the source; `testCompletedAt` is a
nullable timestamp (epoch milliseconds). -/
structure TestLink where
  id : String
  testVariants : Bool
  testCompletedAt : Option Int
deriving Repr, DecidableEq

/-- `completionUrl` as computed at the top of `scheduleTestCompletion`. -/
def completionUrl (appDomain : String) (link : TestLink) : String :=
  appDomain ++ "/api/cron/links/" ++ link.id ++ "/complete-tests"

/-- Embedding of `scheduleTestCompletion`: first delete every previously
scheduled completion message for the link's completion url, then, only if
the link has test variants and a completion timestamp strictly in the
future, publish one delayed message (delay in seconds). `now` is the value
of `new Date()` at call time, in epoch milliseconds. -/
def scheduleTestCompletion (appDomain : String) (now : Int)
    (queue : List ScheduledMessage) (link : TestLink) : List ScheduledMessage :=
  let cu := completionUrl appDomain link
  let queueAfterDelete := queue.filter (fun m => m.url ≠ cu)
  if !link.testVariants then queueAfterDelete
  else
    match link.testCompletedAt with
    | none => queueAfterDelete
    | some t =>
        if t > now then queueAfterDelete ++ [⟨cu, (t - now) / 1000⟩]
        else queueAfterDelete

/-- Number of outstanding delayed completion messages for a given link. -/
def outstandingFor (appDomain : String) (link : TestLink)
    (queue : List ScheduledMessage) : Nat :=
  (queue.filter (fun m => m.url = completionUrl appDomain link)).length

/-! ## Parse-loop lemmas -/

/-- Skip phase of the step loop: while `currentRow` is below the cursor,
rows are traversed and counted but nothing else changes. -/
theorem parseSteps_skip {ρ α : Type} (mapRow : ρ → α) (cursor : Nat)
    (rows : List ρ) : ∀ (ml : List α) (cr : Nat) (cw : List Nat) (ab : Bool),
    cr ≤ cursor →
    parseSteps mapRow cursor rows ⟨ml, cr, cw, ab⟩ =
      if rows.length ≤ cursor - cr then ⟨ml, cr + rows.length, cw, ab⟩
      else parseSteps mapRow cursor (rows.drop (cursor - cr)) ⟨ml, cursor, cw, ab⟩ := by
  induction rows with
  | nil =>
      intro ml cr cw ab h
      simp [parseSteps]
  | cons r rest ih =>
      intro ml cr cw ab h
      rcases Nat.lt_or_ge cr cursor with hc | hc
      · have hstep : parseSteps mapRow cursor (r :: rest) ⟨ml, cr, cw, ab⟩ =
            parseSteps mapRow cursor rest ⟨ml, cr + 1, cw, ab⟩ := by
          simp [parseSteps, hc]
        have hsub : cursor - cr = (cursor - (cr + 1)) + 1 := by omega
        rw [hstep, ih ml (cr + 1) cw ab (by omega)]
        by_cases hlen : rest.length ≤ cursor - (cr + 1)
        · rw [if_pos hlen, if_pos (by simp only [List.length_cons]; omega)]
          simp only [ParseState.mk.injEq, List.length_cons, true_and, and_true]
          omega
        · rw [if_neg hlen, if_neg (by simp only [List.length_cons]; omega)]
          rw [hsub, List.drop_succ_cons]
      · have heq : cr = cursor := Nat.le_antisymm h hc
        have h0 : cursor - cr = 0 := by omega
        rw [if_neg (by simp only [List.length_cons]; omega), h0, List.drop_zero,
          heq]

/-- Processing phase of the step loop: from a `currentRow` at or past the
cursor and within budget, the loop maps one row per step, persists
`currentRow + 1` each time, and aborts when the budget is exhausted while
rows remain. -/
theorem parseSteps_proc {ρ α : Type} (mapRow : ρ → α) (cursor : Nat)
    (rows : List ρ) : ∀ (ml : List α) (cr : Nat) (cw : List Nat) (ab : Bool),
    cursor ≤ cr → cr ≤ cursor + MAX_ROWS_PER_EXECUTION →
    parseSteps mapRow cursor rows ⟨ml, cr, cw, ab⟩ =
      ⟨ml ++ ((rows.take (cursor + MAX_ROWS_PER_EXECUTION - cr)).map mapRow),
       min (cr + rows.length) (cursor + MAX_ROWS_PER_EXECUTION),
       cw ++ List.range' (cr + 1)
         (min rows.length (cursor + MAX_ROWS_PER_EXECUTION - cr)),
       ab || decide (cursor + MAX_ROWS_PER_EXECUTION < cr + rows.length)⟩ := by
  induction rows with
  | nil =>
      intro ml cr cw ab h1 h2
      simp only [parseSteps, List.take_nil, List.map_nil, List.append_nil,
        List.length_nil, Nat.add_zero, Nat.zero_min, List.range',
        List.append_nil]
      rw [Nat.min_eq_left h2, decide_eq_false (by omega), Bool.or_false]
  | cons r rest ih =>
      intro ml cr cw ab h1 h2
      have hnotlt : ¬ cr < cursor := Nat.not_lt.mpr h1
      by_cases habort : cr - cursor ≥ MAX_ROWS_PER_EXECUTION
      · have hcr : cr = cursor + MAX_ROWS_PER_EXECUTION := by omega
        have hstep : parseSteps mapRow cursor (r :: rest) ⟨ml, cr, cw, ab⟩ =
            ⟨ml, cr, cw, true⟩ := by
          simp [parseSteps, hnotlt, habort]
        rw [hstep]
        simp only [hcr, Nat.sub_self, List.take_zero, List.map_nil,
          List.append_nil, Nat.min_zero, List.range', List.length_cons]
        rw [Nat.min_eq_right (by omega), decide_eq_true (by omega),
          Bool.or_true]
      · have hstep : parseSteps mapRow cursor (r :: rest) ⟨ml, cr, cw, ab⟩ =
            parseSteps mapRow cursor rest
              ⟨ml ++ [mapRow r], cr + 1, cw ++ [cr + 1], ab⟩ := by
          simp [parseSteps, hnotlt, habort]
        rw [hstep, ih _ _ _ _ (by omega) (by omega)]
        have hmin : min ((r :: rest).length)
            (cursor + MAX_ROWS_PER_EXECUTION - cr) =
            min rest.length (cursor + MAX_ROWS_PER_EXECUTION - (cr + 1)) + 1 := by
          simp only [List.length_cons]; omega
        have hk : cursor + MAX_ROWS_PER_EXECUTION - cr =
            (cursor + MAX_ROWS_PER_EXECUTION - (cr + 1)) + 1 := by omega
        rw [hmin, hk, List.range'_succ, List.take_succ_cons]
        simp only [List.map_cons, ParseState.mk.injEq]
        have harith : cr + 1 + rest.length = cr + (r :: rest).length := by
          simp only [List.length_cons]; omega
        refine ⟨by simp, by simp only [List.length_cons]; omega, by simp,
          by rw [harith]⟩

/-- Characterization of one invocation's parse: the mapped rows are
exactly the ≤ 25-row window of the stream starting at the cursor; the
persisted cursor values are the consecutive integers past the cursor, one
per mapped row; the loop aborts exactly when rows remain beyond the
window. -/
theorem runParse_spec {ρ α : Type} (mapRow : ρ → α) (cursor : Nat)
    (rows : List ρ) :
    runParse mapRow cursor rows =
      { mappedLinks := ((rows.drop cursor).take MAX_ROWS_PER_EXECUTION).map mapRow,
        currentRow := min rows.length (cursor + MAX_ROWS_PER_EXECUTION),
        cursorWrites := List.range' (cursor + 1)
          (min (rows.length - cursor) MAX_ROWS_PER_EXECUTION),
        aborted := decide (cursor + MAX_ROWS_PER_EXECUTION < rows.length) } := by
  unfold runParse
  rw [parseSteps_skip mapRow cursor rows [] 0 [] false (Nat.zero_le cursor)]
  simp only [Nat.sub_zero]
  by_cases hlen : rows.length ≤ cursor
  · rw [if_pos hlen]
    have hdrop : rows.drop cursor = [] := List.drop_eq_nil_of_le hlen
    simp only [hdrop, List.take_nil, List.map_nil,
      Nat.min_eq_left (by omega : rows.length ≤ cursor + MAX_ROWS_PER_EXECUTION),
      Nat.sub_eq_zero_of_le hlen, Nat.min_eq_left (Nat.zero_le _), List.range',
      decide_eq_false (by omega : ¬ cursor + MAX_ROWS_PER_EXECUTION < rows.length),
      ParseState.mk.injEq, Nat.zero_add, and_self]
  · rw [if_neg hlen]
    rw [parseSteps_proc mapRow cursor (rows.drop cursor) [] cursor [] false
      (Nat.le_refl cursor) (by omega)]
    have htot : cursor + (rows.length - cursor) = rows.length := by omega
    simp only [List.nil_append, List.length_drop, Nat.add_sub_cancel_left,
      Bool.false_or, htot, ParseState.mk.injEq]

/-! ## Materializer lemmas -/

/-- The early return for an empty batch produces the same outcome fields
as the general data flow, so `processMappedLinks` is the general record
unconditionally. -/
theorem processMappedLinks_eq (ctor : LinkData → String)
    (pfn : LinkData → ProcessedLink) (store : List String)
    (batch : List MapperResult) :
    processMappedLinks ctor pfn store batch =
      ⟨failedMappingsOf batch, successfulDataOf batch,
       (((successfulDataOf batch).filterMap (·.tags)).flatten).filter
         (fun t => t ≠ ""),
       ((successfulDataOf batch).map (·.domain)).filter (fun d => d ≠ ""),
       linksToCreateOf ctor store batch,
       (((linksToCreateOf ctor store batch).map pfn).filter
         (fun p => p.error.isNone)).map (·.link),
       (((linksToCreateOf ctor store batch).map pfn).filter
         (fun p => p.error.isSome)).map
         (fun p => ⟨p.link.domain, p.link.key, p.error.getD ""⟩),
       ((((linksToCreateOf ctor store batch).map pfn).filter
         (fun p => p.error.isNone)).map (·.link)).length⟩ := by
  cases batch with
  | nil => rfl
  | cons h t => rfl

/-- A candidate survives the dedup filter exactly when it is one of the
batch's successfully mapped payloads and its canonical short-link string
is not already in the workspace's store. -/
theorem mem_linksToCreateOf (ctor : LinkData → String) (store : List String)
    (batch : List MapperResult) (l : LinkData) :
    l ∈ linksToCreateOf ctor store batch ↔
      l ∈ successfulDataOf batch ∧ ctor l ∉ store := by
  unfold linksToCreateOf existingLinksOf
  simp only [List.mem_filter, Bool.not_eq_true', List.any_eq_false,
    decide_eq_true_eq, List.mem_filter, List.elem_eq_mem, List.mem_map]
  constructor
  · rintro ⟨hmem, hall⟩
    refine ⟨hmem, fun hstore => ?_⟩
    exact hall (ctor l)
      ⟨hstore, of_decide_eq_true (by
        simp only [decide_eq_true_eq]
        exact ⟨l, hmem, rfl⟩)⟩ rfl
  · rintro ⟨hmem, hstore⟩
    refine ⟨hmem, fun e he heq => ?_⟩
    exact hstore (heq ▸ he.1)

theorem outstandingFor_scheduleTestCompletion_le_one
    (appDomain : String) (now : Int) (queue : List ScheduledMessage)
    (link : TestLink) :
    outstandingFor appDomain link (scheduleTestCompletion appDomain now queue link) ≤ 1 := by
  unfold outstandingFor scheduleTestCompletion
  set cu := completionUrl appDomain link with hcu
  have hdel : (queue.filter (fun m => m.url ≠ cu)).filter
      (fun m => m.url = cu) = [] := by
    rw [List.filter_filter]
    apply List.filter_eq_nil_iff.mpr
    intro m _
    by_cases h : m.url = cu <;> simp [h]
  by_cases hv : link.testVariants
  · cases hct : link.testCompletedAt with
    | none => simp [hv, hct, hdel]
    | some t =>
        by_cases ht : t > now
        · simp only [hv, Bool.not_true, hct, if_pos ht, if_neg (by simp : ¬(false = true))]
          rw [List.filter_append, hdel]
          simp
        · simp [hv, hct, ht, hdel]
  · simp only [Bool.not_eq_true] at hv
    simp [hv, hdel]

/-- C1: every candidate whose canonical short-link string already exists
in the workspace's storage is excluded from the set passed to link
validation and bulk insertion, so re-running the batch pipeline over an
already-processed row range (same job, stale cursor) never creates a
second link with an existing canonical short-link string. -/
theorem processMappedLinks_dedup_excludes_existing
    (ctor : LinkData → String) (pfn : LinkData → ProcessedLink)
    (store : List String) (batch : List MapperResult) (l : LinkData)
    (hl : l ∈ (processMappedLinks ctor pfn store batch).linksToCreate) :
    ctor l ∉ store := by
  rw [processMappedLinks_eq] at hl
  exact ((mem_linksToCreateOf ctor store batch l).mp hl).2

/-- Witness for C1: in a batch with two successfully mapped rows, the one
whose canonical short-link is absent from the store survives the dedup
filter, and the theorem yields that its canonical string is not stored. -/
theorem processMappedLinks_dedup_excludes_existing_witness :
    (⟨"d.co", "a", "https://x.com", none, none, none, none⟩ : LinkData) ∈
      (processMappedLinks (fun l => l.domain ++ "/" ++ l.key)
        (fun l => ⟨l, none⟩) ["d.co/b"]
        [⟨true, none, some ⟨"d.co", "a", "https://x.com", none, none, none, none⟩⟩,
         ⟨true, none, some ⟨"d.co", "b", "https://y.com", none, none, none, none⟩⟩]).linksToCreate ∧
    (fun (l : LinkData) => l.domain ++ "/" ++ l.key)
        (⟨"d.co", "a", "https://x.com", none, none, none, none⟩ : LinkData) ∉
      ["d.co/b"] :=
  ⟨by decide,
   processMappedLinks_dedup_excludes_existing
     (fun l => l.domain ++ "/" ++ l.key) (fun l => ⟨l, none⟩) ["d.co/b"]
     [⟨true, none, some ⟨"d.co", "a", "https://x.com", none, none, none, none⟩⟩,
      ⟨true, none, some ⟨"d.co", "b", "https://y.com", none, none, none, none⟩⟩]
     ⟨"d.co", "a", "https://x.com", none, none, none, none⟩ (by decide)⟩

/-- C10: the dedup step filters only against links already in storage,
never within the batch: a successfully mapped payload whose canonical
short-link is not stored keeps every one of its occurrences in the
candidate set passed to link validation and creation. -/
theorem processMappedLinks_no_intra_batch_dedup
    (ctor : LinkData → String) (pfn : LinkData → ProcessedLink)
    (store : List String) (batch : List MapperResult) (d : LinkData)
    (hd : ctor d ∉ store) :
    ((processMappedLinks ctor pfn store batch).linksToCreate).count d =
      ((processMappedLinks ctor pfn store batch).successfulData).count d := by
  rw [processMappedLinks_eq]
  show (linksToCreateOf ctor store batch).count d =
    (successfulDataOf batch).count d
  unfold linksToCreateOf
  apply List.count_filter
  simp only [Bool.not_eq_true', List.any_eq_false, decide_eq_true_eq]
  intro e he heq
  unfold existingLinksOf at he
  exact hd (heq ▸ (List.mem_filter.mp he).1)

/-- Witness for C10: a batch holding the same successfully mapped payload
twice (same domain and key, not in storage) keeps both occurrences in the
set passed on; its count among the candidates is 2, as among the
successful mappings. -/
theorem processMappedLinks_no_intra_batch_dedup_witness :
    (fun (l : LinkData) => l.domain ++ "/" ++ l.key)
        (⟨"d.co", "a", "https://x.com", none, none, none, none⟩ : LinkData) ∉
      ([] : List String) ∧
    ((processMappedLinks (fun l => l.domain ++ "/" ++ l.key)
        (fun l => ⟨l, none⟩) []
        [⟨true, none, some ⟨"d.co", "a", "https://x.com", none, none, none, none⟩⟩,
         ⟨true, none, some ⟨"d.co", "a", "https://x.com", none, none, none, none⟩⟩]).linksToCreate).count
      ⟨"d.co", "a", "https://x.com", none, none, none, none⟩ =
    ((processMappedLinks (fun l => l.domain ++ "/" ++ l.key)
        (fun l => ⟨l, none⟩) []
        [⟨true, none, some ⟨"d.co", "a", "https://x.com", none, none, none, none⟩⟩,
         ⟨true, none, some ⟨"d.co", "a", "https://x.com", none, none, none, none⟩⟩]).successfulData).count
      ⟨"d.co", "a", "https://x.com", none, none, none, none⟩ ∧
    ((processMappedLinks (fun l => l.domain ++ "/" ++ l.key)
        (fun l => ⟨l, none⟩) []
        [⟨true, none, some ⟨"d.co", "a", "https://x.com", none, none, none, none⟩⟩,
         ⟨true, none, some ⟨"d.co", "a", "https://x.com", none, none, none, none⟩⟩]).successfulData).count
      ⟨"d.co", "a", "https://x.com", none, none, none, none⟩ = 2 :=
  ⟨by decide,
   processMappedLinks_no_intra_batch_dedup
     (fun l => l.domain ++ "/" ++ l.key) (fun l => ⟨l, none⟩) []
     [⟨true, none, some ⟨"d.co", "a", "https://x.com", none, none, none, none⟩⟩,
      ⟨true, none, some ⟨"d.co", "a", "https://x.com", none, none, none, none⟩⟩]
     ⟨"d.co", "a", "https://x.com", none, none, none, none⟩ (by decide),
   by decide⟩

/-- C3: one invocation maps exactly the window of at most 25 rows starting
at the persisted cursor — rows below the cursor are traversed (counted in
`currentRow`) but not mapped, and once the budget is exhausted no further
row of the stream is mapped. -/
theorem runParse_window_bound {ρ α : Type} (mapRow : ρ → α) (c : Nat)
    (rows : List ρ) :
    (runParse mapRow c rows).mappedLinks =
      ((rows.drop c).take MAX_ROWS_PER_EXECUTION).map mapRow ∧
    (runParse mapRow c rows).mappedLinks.length ≤ MAX_ROWS_PER_EXECUTION ∧
    (runParse mapRow c rows).currentRow =
      min rows.length (c + MAX_ROWS_PER_EXECUTION) := by
  rw [runParse_spec]
  refine ⟨rfl, ?_, rfl⟩
  show (((rows.drop c).take MAX_ROWS_PER_EXECUTION).map mapRow).length ≤
    MAX_ROWS_PER_EXECUTION
  rw [List.length_map, List.length_take]
  omega

/-- C5: within one invocation the persisted cursor values are the
consecutive integers `c+1, c+2, ...`, one write per mapped row (each write
happening in the same step as its row, before the next row is consumed);
the write sequence is strictly increasing, every write exceeds the
starting cursor, and the cursor value left in redis never falls below the
starting cursor. -/
theorem runParse_cursor_monotone {ρ α : Type} (mapRow : ρ → α) (c : Nat)
    (rows : List ρ) (ws jobId : String) :
    (runParse mapRow c rows).cursorWrites =
      List.range' (c + 1) (min (rows.length - c) MAX_ROWS_PER_EXECUTION) ∧
    (runParse mapRow c rows).cursorWrites.length =
      (runParse mapRow c rows).mappedLinks.length ∧
    List.Pairwise (· < ·) (runParse mapRow c rows).cursorWrites ∧
    (∀ w ∈ (runParse mapRow c rows).cursorWrites, c < w) ∧
    (runInvocation mapRow ws jobId c rows).finalCursor =
      c + (runParse mapRow c rows).cursorWrites.length := by
  rw [runParse_spec]
  refine ⟨rfl, ?_, ?_, ?_, ?_⟩
  · show (List.range' (c + 1) (min (rows.length - c) MAX_ROWS_PER_EXECUTION)).length =
      (((rows.drop c).take MAX_ROWS_PER_EXECUTION).map mapRow).length
    rw [List.length_range', List.length_map, List.length_take,
      List.length_drop]
    omega
  · exact List.pairwise_lt_range' _ _
  · intro w hw
    rw [List.mem_range'_1] at hw
    omega
  · have hfc : (runInvocation mapRow ws jobId c rows).finalCursor =
        (runParse mapRow c rows).cursorWrites.getLastD c := by
      unfold runInvocation
      dsimp only
      split <;> rfl
    rw [hfc, runParse_spec]
    show (List.range' (c + 1)
        (min (rows.length - c) MAX_ROWS_PER_EXECUTION)).getLastD c =
      c + (List.range' (c + 1)
        (min (rows.length - c) MAX_ROWS_PER_EXECUTION)).length
    rw [List.length_range']
    rcases Nat.eq_zero_or_pos (min (rows.length - c) MAX_ROWS_PER_EXECUTION)
      with hk | hk
    · rw [hk]
      simp [List.range']
    · rw [List.getLastD_eq_getLast?, List.getLast?_range']
      rw [if_neg (by omega)]
      simp only [Option.getD_some]
      omega

/-- C2: over a 60-row file, the invocation at cursor 0 maps rows 0-24,
leaves the persisted cursor at 25 and publishes exactly one continuation
message; the invocation at cursor 25 maps rows 25-49 and publishes
another; the invocation at cursor 50 maps rows 50-59, reaches end of
file, and takes the finalize branch (summary notification, deletion of
the four per-job redis keys, deletion of the source file) instead of
publishing a continuation. -/
theorem csv_import_60_rows_three_invocations {ρ α : Type} (mapRow : ρ → α)
    (ws jobId : String) (rows : List ρ) (h : rows.length = 60) :
    runInvocation mapRow ws jobId 0 rows =
      ⟨(rows.take 25).map mapRow, List.range' 1 25, 25, false, 1, false,
       [], false⟩ ∧
    runInvocation mapRow ws jobId 25 rows =
      ⟨((rows.drop 25).take 25).map mapRow, List.range' 26 25, 50, false, 1,
       false, [], false⟩ ∧
    runInvocation mapRow ws jobId 50 rows =
      ⟨(rows.drop 50).map mapRow, List.range' 51 10, 60, true, 0, true,
       [redisKey ws jobId ++ ":cursor", redisKey ws jobId ++ ":created",
        redisKey ws jobId ++ ":failed", redisKey ws jobId ++ ":domains"],
       true⟩ := by
  have h1 : runParse mapRow 0 rows =
      ⟨(rows.take MAX_ROWS_PER_EXECUTION).map mapRow, 25, List.range' 1 25,
       true⟩ := by
    rw [runParse_spec, List.drop_zero]
    rw [show min rows.length (0 + MAX_ROWS_PER_EXECUTION) = 25 by
      simp only [MAX_ROWS_PER_EXECUTION]; omega]
    rw [show min (rows.length - 0) MAX_ROWS_PER_EXECUTION = 25 by
      simp only [MAX_ROWS_PER_EXECUTION]; omega]
    rw [show decide (0 + MAX_ROWS_PER_EXECUTION < rows.length) = true by
      simp only [MAX_ROWS_PER_EXECUTION, decide_eq_true_eq]; omega]
  have h2 : runParse mapRow 25 rows =
      ⟨((rows.drop 25).take MAX_ROWS_PER_EXECUTION).map mapRow, 50,
       List.range' 26 25, true⟩ := by
    rw [runParse_spec]
    rw [show min rows.length (25 + MAX_ROWS_PER_EXECUTION) = 50 by
      simp only [MAX_ROWS_PER_EXECUTION]; omega]
    rw [show min (rows.length - 25) MAX_ROWS_PER_EXECUTION = 25 by
      simp only [MAX_ROWS_PER_EXECUTION]; omega]
    rw [show decide (25 + MAX_ROWS_PER_EXECUTION < rows.length) = true by
      simp only [MAX_ROWS_PER_EXECUTION, decide_eq_true_eq]; omega]
  have h3 : runParse mapRow 50 rows =
      ⟨(rows.drop 50).map mapRow, 60, List.range' 51 10, false⟩ := by
    rw [runParse_spec]
    rw [List.take_of_length_le (by
      rw [List.length_drop, h]
      simp only [MAX_ROWS_PER_EXECUTION]
      omega)]
    rw [show min rows.length (50 + MAX_ROWS_PER_EXECUTION) = 60 by
      simp only [MAX_ROWS_PER_EXECUTION]; omega]
    rw [show min (rows.length - 50) MAX_ROWS_PER_EXECUTION = 10 by
      simp only [MAX_ROWS_PER_EXECUTION]; omega]
    rw [show decide (50 + MAX_ROWS_PER_EXECUTION < rows.length) = false by
      simp only [MAX_ROWS_PER_EXECUTION, decide_eq_false_iff_not]; omega]
  refine ⟨?_, ?_, ?_⟩
  · unfold runInvocation
    rw [h1]
    dsimp only
    rw [h]
    rw [if_pos (by
      simp only [MAX_ROWS_PER_EXECUTION]
      exact ⟨by omega, by decide⟩)]
    rfl
  · unfold runInvocation
    rw [h2]
    dsimp only
    rw [h]
    rw [if_pos (by
      simp only [MAX_ROWS_PER_EXECUTION]
      exact ⟨by omega, by decide⟩)]
    rfl
  · unfold runInvocation
    rw [h3]
    dsimp only
    rw [h]
    rw [if_neg (by
      simp only [MAX_ROWS_PER_EXECUTION]
      intro hc
      exact absurd hc.2 (by decide))]
    rfl

/-- Witness for C2: the three invocations evaluated on the concrete
60-row stream `List.range 60` with the identity row mapper. -/
theorem csv_import_60_rows_three_invocations_witness :
    (List.range 60).length = 60 ∧
    runInvocation id "ws" "job" 0 (List.range 60) =
      ⟨((List.range 60).take 25).map id, List.range' 1 25, 25, false, 1,
       false, [], false⟩ ∧
    runInvocation id "ws" "job" 25 (List.range 60) =
      ⟨(((List.range 60).drop 25).take 25).map id, List.range' 26 25, 50,
       false, 1, false, [], false⟩ ∧
    runInvocation id "ws" "job" 50 (List.range 60) =
      ⟨((List.range 60).drop 50).map id, List.range' 51 10, 60, true, 0,
       true,
       [redisKey "ws" "job" ++ ":cursor", redisKey "ws" "job" ++ ":created",
        redisKey "ws" "job" ++ ":failed", redisKey "ws" "job" ++ ":domains"],
       true⟩ :=
  ⟨by decide,
   (csv_import_60_rows_three_invocations id "ws" "job" (List.range 60)
     (by decide)).1,
   (csv_import_60_rows_three_invocations id "ws" "job" (List.range 60)
     (by decide)).2.1,
   (csv_import_60_rows_three_invocations id "ws" "job" (List.range 60)
     (by decide)).2.2⟩

/-- C7: a row whose mapped url value does not parse as a valid absolute
URL yields a failure result carrying a descriptive error, and failure
results never contribute to the candidate set handed to the link
validation/creation path (which draws only from successful mappings). -/
theorem mapCsvRowToLink_invalid_url_excluded
    (normalize : String → String) (validURL : String → Bool)
    (parseDT : String → Option Int) (row : Row) (mapping : LinkMapping)
    (h1 : getValueByKey normalize row mapping.link ≠ "")
    (h2 : getValueByKey normalize row mapping.url ≠ "")
    (h3 : validURL (getValueByKey normalize row mapping.url) = false) :
    mapCsvRowToLink normalize validURL parseDT row mapping =
      { success := false,
        error := some ("Invalid URL format: " ++
          getValueByKey normalize row mapping.url),
        data := none } ∧
    ∀ (ctor : LinkData → String) (pfn : LinkData → ProcessedLink)
      (store : List String) (batch : List MapperResult) (l : LinkData),
      l ∈ (processMappedLinks ctor pfn store batch).linksToCreate →
      ∃ r, r ∈ batch ∧ r.success = true ∧ r.data = some l := by
  constructor
  · simp only [mapCsvRowToLink]
    rw [if_neg h1, if_neg h2, if_pos (by rw [h3]; rfl)]
  · intro ctor pfn store batch l hl
    rw [processMappedLinks_eq] at hl
    have hmem := ((mem_linksToCreateOf ctor store batch l).mp hl).1
    unfold successfulDataOf at hmem
    rw [List.mem_filterMap] at hmem
    obtain ⟨r, hrf, hrd⟩ := hmem
    rw [List.mem_filter] at hrf
    refine ⟨r, hrf.1, ?_, hrd⟩
    have := hrf.2
    simp only [Bool.and_eq_true] at this
    exact this.1

/-- Witness for C7: a row whose url column holds `"nota url"`, with a URL
parser rejecting every string, maps to the invalid-URL failure result. -/
theorem mapCsvRowToLink_invalid_url_excluded_witness :
    getValueByKey (fun s => s) [("link", "d.co/a"), ("url", "nota url")]
      "link" ≠ "" ∧
    getValueByKey (fun s => s) [("link", "d.co/a"), ("url", "nota url")]
      "url" ≠ "" ∧
    (fun (_ : String) => false)
      (getValueByKey (fun s => s) [("link", "d.co/a"), ("url", "nota url")]
        "url") = false ∧
    mapCsvRowToLink (fun s => s) (fun _ => false) (fun _ => none)
      [("link", "d.co/a"), ("url", "nota url")]
      ⟨"link", "url", none, none, none, none⟩ =
      { success := false,
        error := some ("Invalid URL format: " ++
          getValueByKey (fun s => s) [("link", "d.co/a"), ("url", "nota url")]
            "url"),
        data := none } :=
  ⟨by decide, by decide, rfl,
   (mapCsvRowToLink_invalid_url_excluded (fun s => s) (fun _ => false)
     (fun _ => none) [("link", "d.co/a"), ("url", "nota url")]
     ⟨"link", "url", none, none, none, none⟩
     (by decide) (by decide) rfl).1⟩

/-- C8: once a row reaches short-link parsing, its `link` field is split
on `/`; the derived domain is the first segment, and when the field has no
`/` at all the domain is the whole field and the key is the root sentinel
`_root`; when the remaining segments joined by `/` are nonempty, the key
is exactly that joined remainder. -/
theorem mapCsvRowToLink_key_derivation
    (normalize : String → String) (validURL : String → Bool)
    (parseDT : String → Option Int) (row : Row) (mapping : LinkMapping)
    (lv : String)
    (hlv : getValueByKey normalize row mapping.link = lv)
    (h1 : lv ≠ "")
    (h2 : getValueByKey normalize row mapping.url ≠ "")
    (h3 : validURL (getValueByKey normalize row mapping.url) = true) :
    ∃ d, (mapCsvRowToLink normalize validURL parseDT row mapping).data =
        some d ∧
      d.domain = (jsSplit '/' lv).headD "" ∧
      ('/' ∉ lv.toList → d.domain = lv ∧ d.key = "_root") ∧
      (String.intercalate "/" (jsSplit '/' lv).tail ≠ "" →
        d.key = String.intercalate "/" (jsSplit '/' lv).tail) := by
  simp only [mapCsvRowToLink, hlv]
  rw [if_neg h1, if_neg h2, if_neg (by rw [h3]; exact Bool.false_ne_true)]
  refine ⟨_, rfl, rfl, ?_, ?_⟩
  · intro hslash
    have hjs : jsSplit '/' lv = [lv] := by
      unfold jsSplit
      rw [List.splitOn, List.splitOnP_eq_single]
      · rfl
      · intro x hx hxe
        rw [beq_iff_eq] at hxe
        exact hslash (hxe ▸ hx)
    rw [hjs]
    exact ⟨rfl, rfl⟩
  · intro hj
    exact if_neg hj

/-- Witness for C8: the row whose `link` field is `"example.com"` (no `/`)
derives domain `"example.com"` and key `"_root"`. -/
theorem mapCsvRowToLink_key_derivation_witness :
    getValueByKey (fun s => s)
      [("link", "example.com"), ("url", "https://x.com")] "link" =
      "example.com" ∧
    ("example.com" : String) ≠ "" ∧
    getValueByKey (fun s => s)
      [("link", "example.com"), ("url", "https://x.com")] "url" ≠ "" ∧
    (fun (_ : String) => true)
      (getValueByKey (fun s => s)
        [("link", "example.com"), ("url", "https://x.com")] "url") = true ∧
    (∃ d, (mapCsvRowToLink (fun s => s) (fun _ => true) (fun _ => none)
        [("link", "example.com"), ("url", "https://x.com")]
        ⟨"link", "url", none, none, none, none⟩).data = some d ∧
      d.domain = (jsSplit '/' "example.com").headD "" ∧
      ('/' ∉ "example.com".toList → d.domain = "example.com" ∧
        d.key = "_root") ∧
      (String.intercalate "/" (jsSplit '/' "example.com").tail ≠ "" →
        d.key = String.intercalate "/" (jsSplit '/' "example.com").tail)) :=
  ⟨by decide, by decide, by decide, rfl,
   mapCsvRowToLink_key_derivation (fun s => s) (fun _ => true)
     (fun _ => none) [("link", "example.com"), ("url", "https://x.com")]
     ⟨"link", "url", none, none, none, none⟩ "example.com"
     (by decide) (by decide) (by decide) rfl⟩

/-- C4 fails on the code at this input: a row missing its `url` field maps
to a failure result, and the invocation appends nothing to the job's
failed-rows list — the failure sits in the logged `failedMappings` but the
`:failed` list receives only downstream `processLink` rejections. -/
theorem processMappedLinks_mapper_failure_not_recorded :
    (mapCsvRowToLink (fun s => s) (fun _ => true) (fun _ => none)
        [("link", "d.co/a")] ⟨"link", "url", none, none, none, none⟩).success
      = false ∧
    (processMappedLinks (fun l => l.domain ++ "/" ++ l.key)
        (fun l => ⟨l, none⟩) []
        [mapCsvRowToLink (fun s => s) (fun _ => true) (fun _ => none)
          [("link", "d.co/a")]
          ⟨"link", "url", none, none, none, none⟩]).errorLinksAppended
      = [] ∧
    (processMappedLinks (fun l => l.domain ++ "/" ++ l.key)
        (fun l => ⟨l, none⟩) []
        [mapCsvRowToLink (fun s => s) (fun _ => true) (fun _ => none)
          [("link", "d.co/a")]
          ⟨"link", "url", none, none, none, none⟩]).failedMappings
      ≠ [] := by
  refine ⟨by decide, by decide, by decide⟩

/-- C4 (amended): rows rejected by the downstream link-validation path are
recorded per-row in the job's failed-rows list — the appended entries are
exactly the rejected results of the surviving candidates — while rows
failing mapper validation (missing field, unparseable URL) are captured as
failure results that are logged but never appended to that list; and no
failure aborts the batch: a failed mapper result in the batch leaves the
candidate set, the created links and the appended failures of the
remaining rows unchanged. -/
theorem processMappedLinks_error_recording
    (ctor : LinkData → String) (pfn : LinkData → ProcessedLink)
    (store : List String) (batch : List MapperResult) :
    (∀ l, l ∈ (processMappedLinks ctor pfn store batch).linksToCreate →
      ∀ e, (pfn l).error = some e →
        (⟨(pfn l).link.domain, (pfn l).link.key, e⟩ : ErrorLink) ∈
          (processMappedLinks ctor pfn store batch).errorLinksAppended) ∧
    ((processMappedLinks ctor pfn store batch).errorLinksAppended =
      (((processMappedLinks ctor pfn store batch).linksToCreate.map
        pfn).filter (fun p => p.error.isSome)).map
        (fun p => ⟨p.link.domain, p.link.key, p.error.getD ""⟩)) ∧
    (∀ f : MapperResult, f.success = false →
      (processMappedLinks ctor pfn store (f :: batch)).linksToCreate =
        (processMappedLinks ctor pfn store batch).linksToCreate ∧
      (processMappedLinks ctor pfn store (f :: batch)).validLinks =
        (processMappedLinks ctor pfn store batch).validLinks ∧
      (processMappedLinks ctor pfn store (f :: batch)).errorLinksAppended =
        (processMappedLinks ctor pfn store batch).errorLinksAppended) := by
  refine ⟨?_, ?_, ?_⟩
  · intro l hl e he
    rw [processMappedLinks_eq] at hl ⊢
    apply List.mem_map.mpr
    refine ⟨pfn l, List.mem_filter.mpr
      ⟨List.mem_map_of_mem pfn hl, by rw [he]; rfl⟩, by rw [he]; rfl⟩
  · rw [processMappedLinks_eq]
  · intro f hf
    have hsd : successfulDataOf (f :: batch) = successfulDataOf batch := by
      unfold successfulDataOf
      congr 1
      simp [List.filter_cons, hf]
    have hltc : linksToCreateOf ctor store (f :: batch) =
        linksToCreateOf ctor store batch := by
      unfold linksToCreateOf existingLinksOf
      rw [hsd]
    rw [processMappedLinks_eq, processMappedLinks_eq]
    exact ⟨hltc, by rw [hltc], by rw [hltc]⟩

/-- Witness for C4 (amended): with a downstream validator rejecting every
candidate with `"rejected"`, a successfully mapped row's rejection is
appended to the failed-rows list. -/
theorem processMappedLinks_error_recording_witness :
    (⟨"d.co", "a", "https://x.com", none, none, none, none⟩ : LinkData) ∈
      (processMappedLinks (fun l => l.domain ++ "/" ++ l.key)
        (fun l => ⟨l, some "rejected"⟩) []
        [⟨true, none,
          some ⟨"d.co", "a", "https://x.com", none, none, none, none⟩⟩]).linksToCreate ∧
    ((fun (l : LinkData) => (⟨l, some "rejected"⟩ : ProcessedLink))
      ⟨"d.co", "a", "https://x.com", none, none, none, none⟩).error =
      some "rejected" ∧
    (⟨"d.co", "a", "rejected"⟩ : ErrorLink) ∈
      (processMappedLinks (fun l => l.domain ++ "/" ++ l.key)
        (fun l => ⟨l, some "rejected"⟩) []
        [⟨true, none,
          some ⟨"d.co", "a", "https://x.com", none, none, none, none⟩⟩]).errorLinksAppended :=
  ⟨by decide, rfl,
   (processMappedLinks_error_recording (fun l => l.domain ++ "/" ++ l.key)
     (fun l => ⟨l, some "rejected"⟩) []
     [⟨true, none,
       some ⟨"d.co", "a", "https://x.com", none, none, none, none⟩⟩]).1
     ⟨"d.co", "a", "https://x.com", none, none, none, none⟩ (by decide)
     "rejected" rfl⟩

/-- C6: for every link, after any two successive calls to
`scheduleTestCompletion` for that link (from any starting queue, at any
two call times), at most one delayed completion message is outstanding for
the link's completion url: each call deletes previously scheduled
messages for that url before deciding whether to publish a new one. -/
theorem scheduleTestCompletion_twice_at_most_one_outstanding
    (appDomain : String) (now₁ now₂ : Int) (queue : List ScheduledMessage)
    (link : TestLink) :
    outstandingFor appDomain link
      (scheduleTestCompletion appDomain now₂
        (scheduleTestCompletion appDomain now₁ queue link) link) ≤ 1 :=
  outstandingFor_scheduleTestCompletion_le_one appDomain now₂
    (scheduleTestCompletion appDomain now₁ queue link) link

/-- C9: for every link whose test-completion timestamp is not strictly in
the future at call time, `scheduleTestCompletion` publishes nothing: the
resulting queue is exactly the starting queue with every message for the
link's completion url removed (cancellation only). -/
theorem scheduleTestCompletion_past_timestamp_cancels_only
    (appDomain : String) (now t : Int) (queue : List ScheduledMessage)
    (link : TestLink) (hct : link.testCompletedAt = some t) (ht : ¬ t > now) :
    scheduleTestCompletion appDomain now queue link =
      queue.filter (fun m => m.url ≠ completionUrl appDomain link) := by
  unfold scheduleTestCompletion
  by_cases hv : link.testVariants <;> simp [hv, hct, ht]

/-- Witness for C9: a link whose completion timestamp (1000) is in the past
at call time (now = 2000), starting from a queue holding one stale
completion message for that link: the call leaves the queue empty. -/
theorem scheduleTestCompletion_past_timestamp_cancels_only_witness :
    ¬ (1000 : Int) > 2000 ∧
      scheduleTestCompletion "https://app.dub.co" 2000
        [⟨completionUrl "https://app.dub.co" ⟨"lnk1", true, some 1000⟩, 5⟩]
        ⟨"lnk1", true, some 1000⟩ =
      ([⟨completionUrl "https://app.dub.co" ⟨"lnk1", true, some 1000⟩, 5⟩] :
        List ScheduledMessage).filter
        (fun m => m.url ≠ completionUrl "https://app.dub.co" ⟨"lnk1", true, some 1000⟩) :=
  ⟨by decide,
   scheduleTestCompletion_past_timestamp_cancels_only "https://app.dub.co" 2000 1000
     [⟨completionUrl "https://app.dub.co" ⟨"lnk1", true, some 1000⟩, 5⟩]
     ⟨"lnk1", true, some 1000⟩ rfl (by decide)⟩

end Dub
